import Mathlib

/-!
Verification of quantum_rng_api.py.

The script is glue around the qiskit / qiskit-ibm-runtime SDK.  We embed it
shallowly: every external SDK call is a field of an explicit environment
(`Env` for module-level resources, `Service` and `Backend` for the objects the
SDK hands back).  A call that may raise a Python exception is modelled as
`Except Unit` (`.error ()` standing for an arbitrary raised exception); a
Python value that may be `None` or falsy is modelled as `Option`.  The
functions of the script are then translated line by line over that model.
-/

set_option autoImplicit false

namespace QuantumRng

/-- Result of backend.status(): an object carrying the operational flag. -/
structure Status where
  operational : Bool
deriving DecidableEq, Repr

instance exceptDecEq {ε α : Type} [DecidableEq ε] [DecidableEq α] :
    DecidableEq (Except ε α) := fun x y =>
  match x, y with
  | .ok a, .ok b =>
    if h : a = b then isTrue (by rw [h]) else isFalse (fun he => h (Except.ok.inj he))
  | .error e, .error f =>
    if h : e = f then isTrue (by rw [h]) else isFalse (fun he => h (Except.error.inj he))
  | .ok _, .error _ => isFalse (fun he => Except.noConfusion he)
  | .error _, .ok _ => isFalse (fun he => Except.noConfusion he)

/-- An IBM backend object.  backend.status() is a remote call that may raise,
hence Except. -/
structure Backend where
  name : String
  status : Except Unit Status
deriving DecidableEq, Repr

/-- A QiskitRuntimeService object.  service.backend(name) and
service.backends() are remote calls that may raise. -/
structure Service where
  backendByName : String → Except Unit Backend
  backendsList : Except Unit (List Backend)

/-- One instruction appended to a QuantumCircuit by the script:
qc.h(q) or qc.measure_all(). -/
inductive Instr where
  | h (q : Nat)
  | measureAll
deriving DecidableEq, Repr

/-- A QuantumCircuit as the script builds it: the number of qubits given to
the constructor and the list of appended instructions, in order. -/
structure QuantumCircuit where
  nQubits : Nat
  instrs : List Instr
deriving DecidableEq, Repr

/-- QuantumCircuit(n_bits): a fresh circuit with no instructions. -/
def QuantumCircuit.new (n : Nat) : QuantumCircuit :=
  ⟨n, []⟩

/-- qc.h(qs): append a Hadamard gate on each listed qubit, in order. -/
def QuantumCircuit.hGates (qc : QuantumCircuit) (qs : List Nat) : QuantumCircuit :=
  { qc with instrs := qc.instrs ++ qs.map Instr.h }

/-- qc.measure_all(): append measurement of all qubits. -/
def QuantumCircuit.measureAllOp (qc : QuantumCircuit) : QuantumCircuit :=
  { qc with instrs := qc.instrs ++ [Instr.measureAll] }

/-- Number of classical bits a run of the circuit produces: measure_all
measures every qubit, so all of them when measure_all was applied, none
otherwise. -/
def QuantumCircuit.measuredBits (qc : QuantumCircuit) : Nat :=
  if Instr.measureAll ∈ qc.instrs then qc.nQubits else 0

/-- The circuit transpile(qc, backend) returns.  The script never inspects it
except by submitting it, so we keep only the observable the result format
depends on: how many classical bits one shot produces. -/
structure TranspiledCircuit where
  measuredBits : Nat
deriving DecidableEq, Repr

/-- The BitArray at result._pub_results[0].data.meas; get_bitstrings() yields
its list of per-shot measurement strings. -/
structure BitArray where
  bitstrings : List String
deriving DecidableEq, Repr

/-- The data bin at result._pub_results[0].data.  meas = none models a missing
meas attribute or a meas that is None (the script checks both at once). -/
structure DataBin where
  meas : Option BitArray
deriving DecidableEq, Repr

/-- One element of result._pub_results.  data = none models a missing or falsy
data attribute (the script checks hasattr and truthiness together). -/
structure PubResult where
  data : Option DataBin
deriving DecidableEq, Repr

/-- The object returned by job.result().  pubResults = none models a result
object without a _pub_results attribute; some [] models a falsy (empty) one. -/
structure JobResult where
  pubResults : Option (List PubResult)
deriving DecidableEq, Repr

/-- The ambient world of the script: the environment variable lookup and every
SDK entry point it calls.  submit bundles Sampler(backend),
sampler.run([qc], shots), job.job_id() and job.result(), any of which may
raise; localRun bundles AerSimulator().run(qc, shots).result().get_counts(),
returning the list of count keys (empty models the impossible empty dict,
where next(iter(...)) would raise). -/
structure Env where
  apiKey : Option String
  runtimeService : Except Unit Service
  transpileF : QuantumCircuit → Backend → Except Unit TranspiledCircuit
  submit : Backend → TranspiledCircuit → Nat → Except Unit JobResult
  localRun : QuantumCircuit → Nat → List String

/-- Python falsiness of os.getenv: None or the empty string. -/
def apiKeyFalsy (k : Option String) : Bool :=
  match k with
  | none => true
  | some s => s = ""

/-- init_ibm_service, instrumented: the second component records whether the
QiskitRuntimeService constructor was invoked.  Mirrors lines 12-30: if the key
is falsy return None before any connection attempt; otherwise construct the
service, returning None if the constructor raises. -/
def init_ibm_serviceT (env : Env) : Option Service × Bool :=
  if apiKeyFalsy env.apiKey then
    (none, false)
  else
    match env.runtimeService with
    | .ok service => (some service, true)
    | .error _ => (none, true)

/-- init_ibm_service as the script exposes it: the returned value alone. -/
def init_ibm_service (env : Env) : Option Service :=
  (init_ibm_serviceT env).1

/-- The search loop of lines 44-47: walk service.backends() in order and
return the first operational backend.  A status() call that raises escapes to
the outer except of line 51, which returns None, so an error aborts the whole
search. -/
def search_operational : List Backend → Option Backend
  | [] => none
  | b :: rest =>
    match b.status with
    | .error _ => none
    | .ok st => if st.operational then some b else search_operational rest

/-- The inner try of get_quantum_backend, lines 35-41: look up ibm_sherbrooke
by name and take it if operational; any failure there (lookup raised, status
raised, or not operational) yields nothing and falls through. -/
def sherbrooke_choice (service : Service) : Option Backend :=
  match service.backendByName "ibm_sherbrooke" with
  | .error _ => none
  | .ok b =>
    match b.status with
    | .error _ => none
    | .ok st => if st.operational then some b else none

/-- get_quantum_backend, lines 32-53: the ibm_sherbrooke preference, then the
search loop over service.backends(); any exception escaping to the outer
except (a raising backends() call or a raising status() in the loop) returns
None. -/
def get_quantum_backend (service : Service) : Option Backend :=
  match sherbrooke_choice service with
  | some b => some b
  | none =>
    match service.backendsList with
    | .error _ => none
    | .ok bs => search_operational bs

/-- The circuit built at lines 58-60 of run_quantum_job:
QuantumCircuit(n_bits); qc.h(range(n_bits)); qc.measure_all(). -/
def remoteCircuit (n_bits : Nat) : QuantumCircuit :=
  ((QuantumCircuit.new n_bits).hGates (List.range n_bits)).measureAllOp

/-- The circuit built at lines 119-121 of run_local_simulation:
QuantumCircuit(n_bits); qc.h(range(n_bits)); qc.measure_all(). -/
def localCircuit (n_bits : Nat) : QuantumCircuit :=
  ((QuantumCircuit.new n_bits).hGates (List.range n_bits)).measureAllOp

/-- run_quantum_job, lines 55-113.  transpile and the submission may raise
(outer except, return None).  The parsing block walks
result._pub_results[0].data.meas.get_bitstrings(); every missing or falsy
link, and every AttributeError/IndexError/KeyError (our Option model), ends
in return None.  bits = bitstrings_list[0] is returned only when truthy
(non-empty). -/
def run_quantum_job (env : Env) (backend : Backend) (n_bits : Nat) : Option String :=
  let qc := remoteCircuit n_bits
  match env.transpileF qc backend with
  | .error _ => none
  | .ok qc_transpiled =>
    match env.submit backend qc_transpiled 1 with
    | .error _ => none
    | .ok result =>
      match result.pubResults with
      | none => none
      | some [] => none
      | some (pub_result_item :: _) =>
        match pub_result_item.data with
        | none => none
        | some internal_data_bin =>
          match internal_data_bin.meas with
          | none => none
          | some bit_array_result =>
            match bit_array_result.bitstrings with
            | [] => none
            | bits :: _ => if bits = "" then none else some bits

/-- The .replace of line 124: drop every space character from the counts
key. -/
def removeSpaces (s : String) : String :=
  String.mk (s.data.filter (fun c => c ≠ ' '))

/-- run_local_simulation, lines 115-126: run the fixed circuit on the local
AerSimulator with shots=1, take the first counts key, strip spaces.  none
models the StopIteration crash on an (SDK-contract-violating) empty counts
dict, which the function does not catch. -/
def run_local_simulation (env : Env) (n_bits : Nat) : Option String :=
  (env.localRun (localCircuit n_bits) 1).head?.map removeSpaces

/-- One step of the pipeline, for stating ordering properties. -/
inductive Step where
  | initStep
  | backendStep
  | jobStep
  | localStep
deriving DecidableEq, Repr

/-- generate_quantum_bits, lines 128-143, instrumented with the list of steps
executed, in order.  The falsiness tests on service and backend are None
tests (SDK objects are truthy); the test on bits (line 139) is string
truthiness, so an empty string also falls back. -/
def generate_quantum_bitsT (env : Env) (n_bits : Nat) : Option String × List Step :=
  match init_ibm_service env with
  | none => (run_local_simulation env n_bits, [Step.initStep, Step.localStep])
  | some service =>
    match get_quantum_backend service with
    | none =>
      (run_local_simulation env n_bits, [Step.initStep, Step.backendStep, Step.localStep])
    | some backend =>
      match run_quantum_job env backend n_bits with
      | some bits =>
        if bits = "" then
          (run_local_simulation env n_bits,
            [Step.initStep, Step.backendStep, Step.jobStep, Step.localStep])
        else
          (some bits, [Step.initStep, Step.backendStep, Step.jobStep])
      | none =>
        (run_local_simulation env n_bits,
          [Step.initStep, Step.backendStep, Step.jobStep, Step.localStep])

/-- generate_quantum_bits as the script exposes it: the returned value
alone. -/
def generate_quantum_bits (env : Env) (n_bits : Nat) : Option String :=
  (generate_quantum_bitsT env n_bits).1

/-- A character the script treats as a measurement bit. -/
def isBit (c : Char) : Bool :=
  c = '0' || c = '1'

/-- str.count at lines 160-161. -/
def countChar (s : String) (c : Char) : Nat :=
  s.data.count c

/-- int(bits, 2) at line 156, on plain binary digit strings: positional parse,
raising (none) on an empty string or a non-binary character. -/
def intBase2 (s : String) : Option Nat :=
  if s ≠ "" ∧ s.data.all isBit then
    some (s.data.foldl (fun acc c => 2 * acc + (if c = '1' then 1 else 0)) 0)
  else
    none

/-- The entropy test of lines 163-165: ratio = ones / n_bits, Pass iff
0.4 < ratio < 0.6.  Python computes the ratio in binary floating point; for
every count of ones and every n_bits reachable here (n_bits ≤ 256) the float
comparison agrees with the exact rational one, so the embedding uses ℚ. -/
def entropy_pass (bits : String) (n_bits : Nat) : Bool :=
  let ratio : ℚ := (countChar bits '1' : ℚ) / (n_bits : ℚ)
  decide ((0.4 : ℚ) < ratio ∧ ratio < (0.6 : ℚ))

/-- The statistics the __main__ block prints after generation,
lines 154-165. -/
structure Report where
  decimalValue : Option Nat
  zeros : Nat
  ones : Nat
  entropyPass : Bool
deriving DecidableEq, Repr

/-- The reporting part of __main__, lines 154-165, as a function of the
generated bits and the requested n_bits. -/
def report_stats (bits : String) (n_bits : Nat) : Report :=
  { decimalValue := intBase2 bits
    zeros := countChar bits '0'
    ones := countChar bits '1'
    entropyPass := entropy_pass bits n_bits }

/-- The input handling of __main__, lines 147-152: a parsed integer is
clamped by max(8, min(256, n)); a failed parse (or failed read) yields the
default 8. -/
def clamp_n_bits (parsed : Option Int) : Int :=
  match parsed with
  | none => 8
  | some n => max 8 (min 256 n)

/-- The bitstrings reachable inside one element of result._pub_results. -/
def pubStrings (p : PubResult) : List String :=
  match p.data with
  | none => []
  | some db =>
    match db.meas with
    | none => []
    | some ba => ba.bitstrings

/-- All bitstrings held anywhere in a job result, for stating what a
contract-respecting SDK returns. -/
def resultStrings (r : JobResult) : List String :=
  match r.pubResults with
  | none => []
  | some ps => ps.flatMap pubStrings

/-- Whether a backend reports operational (a raising status() call counts as
not operational). -/
def operationalOk (b : Backend) : Bool :=
  match b.status with
  | .error _ => false
  | .ok st => st.operational

/-- Modelled from the claim wording, for comparison with the code: prefer
ibm_sherbrooke when the named lookup succeeds and its status is operational;
otherwise the first backend in service.backends() whose status is
operational; none when none is operational or the enumeration raises. -/
def claimed_backend_choice (service : Service) : Option Backend :=
  let viaName : Option Backend :=
    match service.backendByName "ibm_sherbrooke" with
    | .error _ => none
    | .ok b =>
      match b.status with
      | .error _ => none
      | .ok st => if st.operational then some b else none
  match viaName with
  | some b => some b
  | none =>
    match service.backendsList with
    | .error _ => none
    | .ok bs => bs.find? operationalOk

/-- The remote path of generate_quantum_bits fails: authentication returned
None, or backend discovery returned None, or the job returned None or an
empty string. -/
def remote_path_fails (env : Env) (n_bits : Nat) : Prop :=
  init_ibm_service env = none ∨
  ∃ service, init_ibm_service env = some service ∧
    (get_quantum_backend service = none ∨
      ∃ backend, get_quantum_backend service = some backend ∧
        (run_quantum_job env backend n_bits = none ∨
          run_quantum_job env backend n_bits = some ""))

/-- A world with no API key configured, every remote call raising, and a
local simulator that answers the all-zero string. -/
def envNoKey : Env where
  apiKey := none
  runtimeService := .error ()
  transpileF := fun _ _ => .error ()
  submit := fun _ _ _ => .error ()
  localRun := fun qc _ => [String.mk (List.replicate qc.nQubits '0')]

/-- Same world as envNoKey, but with IBM_API_KEY set to the empty string. -/
def envEmptyKey : Env :=
  { envNoKey with apiKey := some "" }

/-- A backend named ibm_sherbrooke whose status is operational. -/
def bkSherbrooke : Backend :=
  ⟨"ibm_sherbrooke", .ok ⟨true⟩⟩

/-- A service where the named lookup returns the operational sherbrooke
backend. -/
def svcSherbrooke : Service :=
  ⟨fun _ => .ok bkSherbrooke, .ok []⟩

/-- A world whose remote pipeline fully succeeds, producing the single-shot
bitstring "10" on two qubits. -/
def envJobOk : Env where
  apiKey := some "key"
  runtimeService := .ok svcSherbrooke
  transpileF := fun qc _ => .ok ⟨qc.measuredBits⟩
  submit := fun _ _ _ => .ok ⟨some [⟨some ⟨some ⟨["10"]⟩⟩⟩]⟩
  localRun := fun qc _ => [String.mk (List.replicate qc.nQubits '0')]

/-- A service where both the named lookup and the enumeration raise. -/
def svcAllFail : Service :=
  ⟨fun _ => .error (), .error ()⟩

/-- A backend whose status() call raises. -/
def cexBackendBad : Backend :=
  ⟨"alpha", .error ()⟩

/-- An operational backend listed after the raising one. -/
def cexBackendGood : Backend :=
  ⟨"beta", .ok ⟨true⟩⟩

/-- The service demonstrating the divergence in backend selection: the named
lookup raises, and the enumeration lists a backend with a raising status()
before an operational one. -/
def cexService : Service :=
  ⟨fun _ => .error (), .ok [cexBackendBad, cexBackendGood]⟩

/-!
Theorems.
-/

/-- C9: the main entry point clamps a parsed bit count into [8, 256] via
max(8, min(256, n)) — below 8 becomes 8, above 256 becomes 256, in-range
values pass through — and an unparseable input yields the default 8. -/
theorem c9_input_clamping :
    ∀ p : Option Int,
      8 ≤ clamp_n_bits p ∧ clamp_n_bits p ≤ 256 ∧
      clamp_n_bits none = 8 ∧
      ∀ n : Int, p = some n →
        (n < 8 → clamp_n_bits p = 8) ∧
        (256 < n → clamp_n_bits p = 256) ∧
        (8 ≤ n → n ≤ 256 → clamp_n_bits p = n) := by
  intro p
  cases p with
  | none => refine ⟨by norm_num [clamp_n_bits], by norm_num [clamp_n_bits], rfl, ?_⟩
            intro n h
            cases h
  | some n =>
    refine ⟨?_, ?_, rfl, ?_⟩
    · simp only [clamp_n_bits]
      omega
    · simp only [clamp_n_bits]
      omega
    · intro m hm
      cases hm
      refine ⟨?_, ?_, ?_⟩ <;> intros <;> simp only [clamp_n_bits] <;> omega

/-- Witness for C9 at concrete inputs 300, 3 and an unparseable input. -/
theorem c9_input_clamping_witness :
    clamp_n_bits (some 300) = 256 ∧ clamp_n_bits (some 3) = 8 ∧ clamp_n_bits none = 8 :=
  ⟨((c9_input_clamping (some 300)).2.2.2 300 rfl).2.1 (by norm_num),
   ((c9_input_clamping (some 3)).2.2.2 3 rfl).1 (by norm_num),
   (c9_input_clamping none).2.2.1⟩

/-- C10: init_ibm_service treats an empty IBM_API_KEY exactly like a missing
one: in both cases it returns None and the QiskitRuntimeService constructor
is never invoked. -/
theorem c10_empty_key_like_missing :
    ∀ env : Env, env.apiKey = none ∨ env.apiKey = some "" →
      init_ibm_serviceT env = (none, false) := by
  intro env h
  rcases h with h | h <;> simp [init_ibm_serviceT, apiKeyFalsy, h]

/-- Witness for C10: the missing-key and empty-key worlds both return None
without a connection attempt. -/
theorem c10_empty_key_like_missing_witness :
    init_ibm_serviceT envNoKey = (none, false) ∧
    init_ibm_serviceT envEmptyKey = (none, false) :=
  ⟨c10_empty_key_like_missing envNoKey (Or.inl rfl),
   c10_empty_key_like_missing envEmptyKey (Or.inr rfl)⟩

/-- C3: run_quantum_job and run_local_simulation build the same fixed
circuit: n_bits qubits, a Hadamard on every qubit (and on nothing else),
then measure_all, with no other instructions, depending only on n_bits. -/
theorem c3_same_fixed_circuit :
    ∀ n_bits : Nat,
      remoteCircuit n_bits = localCircuit n_bits ∧
      (remoteCircuit n_bits).nQubits = n_bits ∧
      (remoteCircuit n_bits).instrs =
        (List.range n_bits).map Instr.h ++ [Instr.measureAll] ∧
      ∀ q : Nat, Instr.h q ∈ (remoteCircuit n_bits).instrs ↔ q < n_bits := by
  intro n
  refine ⟨rfl, rfl, by simp [remoteCircuit, QuantumCircuit.new, QuantumCircuit.hGates,
    QuantumCircuit.measureAllOp], ?_⟩
  intro q
  simp [remoteCircuit, QuantumCircuit.new, QuantumCircuit.hGates, QuantumCircuit.measureAllOp]

/-- Witness for C3 at n_bits = 3. -/
theorem c3_same_fixed_circuit_witness :
    remoteCircuit 3 = localCircuit 3 ∧ Instr.h 2 ∈ (remoteCircuit 3).instrs :=
  ⟨(c3_same_fixed_circuit 3).1, ((c3_same_fixed_circuit 3).2.2.2 2).mpr (by norm_num)⟩

/-- Inversion lemma for run_quantum_job: it returns some s exactly when the
transpilation and the submission succeed and the private result chain
result._pub_results[0].data.meas.get_bitstrings() starts with the non-empty
string s. -/
theorem run_quantum_job_eq_some_iff
    (env : Env) (backend : Backend) (n_bits : Nat) (s : String) :
    run_quantum_job env backend n_bits = some s ↔
      ∃ (tqc : TranspiledCircuit) (r : JobResult) (p : PubResult)
        (ps : List PubResult) (db : DataBin) (ba : BitArray) (rest : List String),
        env.transpileF (remoteCircuit n_bits) backend = .ok tqc ∧
        env.submit backend tqc 1 = .ok r ∧
        r.pubResults = some (p :: ps) ∧
        p.data = some db ∧
        db.meas = some ba ∧
        ba.bitstrings = s :: rest ∧
        s ≠ "" := by
  unfold run_quantum_job
  cases ht : env.transpileF (remoteCircuit n_bits) backend with
  | error e => simp [ht]
  | ok tqc =>
    cases hs : env.submit backend tqc 1 with
    | error e => simp [ht, hs]
    | ok r =>
      cases hp : r.pubResults with
      | none => simp [ht, hs, hp]
      | some ps =>
        cases ps with
        | nil => simp [ht, hs, hp]
        | cons p ptail =>
          cases hd : p.data with
          | none => simp [ht, hs, hp, hd]
          | some db =>
            cases hm : db.meas with
            | none => simp [ht, hs, hp, hd, hm]
            | some ba =>
              cases hb : ba.bitstrings with
              | nil => simp [ht, hs, hp, hd, hm, hb]
              | cons bits rest =>
                by_cases he : bits = ""
                · simp [ht, hs, hp, hd, hm, hb, he]
                  exact fun h => h.symm
                · simp [ht, hs, hp, hd, hm, hb, he, eq_comm]
                  rintro rfl
                  exact he

/-- C4: run_quantum_job parses the job result exclusively through
result._pub_results[0].data.meas.get_bitstrings(), returning the first
bitstring when the list is non-empty and that string is non-empty, and None
in every other case. -/
theorem c4_result_parsing
    (env : Env) (backend : Backend) (n_bits : Nat) (s : String) :
    run_quantum_job env backend n_bits = some s ↔
      ∃ (tqc : TranspiledCircuit) (r : JobResult) (p : PubResult)
        (ps : List PubResult) (db : DataBin) (ba : BitArray) (rest : List String),
        env.transpileF (remoteCircuit n_bits) backend = .ok tqc ∧
        env.submit backend tqc 1 = .ok r ∧
        r.pubResults = some (p :: ps) ∧
        p.data = some db ∧
        db.meas = some ba ∧
        ba.bitstrings = s :: rest ∧
        s ≠ "" :=
  run_quantum_job_eq_some_iff env backend n_bits s

/-- Witness for C4: the fully succeeding world yields the bitstring of its
job result. -/
theorem c4_result_parsing_witness :
    run_quantum_job envJobOk bkSherbrooke 2 = some "10" :=
  (c4_result_parsing envJobOk bkSherbrooke 2 "10").mpr
    ⟨⟨2⟩, ⟨some [⟨some ⟨some ⟨["10"]⟩⟩⟩]⟩, ⟨some ⟨some ⟨["10"]⟩⟩⟩, [],
      ⟨some ⟨["10"]⟩⟩, ⟨["10"]⟩, [], by decide, rfl, rfl, rfl, rfl, rfl, by decide⟩

/-- C5: the remote-path operations map every vendor failure to None instead
of raising: a falsy key or a raising constructor makes init_ibm_service
return None; raising lookup and enumeration make get_quantum_backend return
None; a raising transpile or submission makes run_quantum_job return None. -/
theorem c5_failures_yield_none :
    ∀ (env : Env) (service : Service) (backend : Backend) (n_bits : Nat),
      (apiKeyFalsy env.apiKey = true → init_ibm_service env = none) ∧
      (env.runtimeService = .error () → init_ibm_service env = none) ∧
      (service.backendByName "ibm_sherbrooke" = .error () →
        service.backendsList = .error () → get_quantum_backend service = none) ∧
      (env.transpileF (remoteCircuit n_bits) backend = .error () →
        run_quantum_job env backend n_bits = none) ∧
      ∀ tqc : TranspiledCircuit,
        env.transpileF (remoteCircuit n_bits) backend = .ok tqc →
        env.submit backend tqc 1 = .error () →
        run_quantum_job env backend n_bits = none := by
  intro env service backend n
  refine ⟨?_, ?_, ?_, ?_, ?_⟩
  · intro h
    simp [init_ibm_service, init_ibm_serviceT, h]
  · intro h
    by_cases h2 : apiKeyFalsy env.apiKey = true <;>
      simp [init_ibm_service, init_ibm_serviceT, h, h2]
  · intro h1 h2
    simp [get_quantum_backend, sherbrooke_choice, h1, h2]
  · intro h
    simp [run_quantum_job, h]
  · intro tqc h1 h2
    simp [run_quantum_job, h1, h2]

/-- Witness for C5 in the world where every remote call raises. -/
theorem c5_failures_yield_none_witness :
    init_ibm_service envNoKey = none ∧
    get_quantum_backend svcAllFail = none ∧
    run_quantum_job envNoKey bkSherbrooke 4 = none :=
  ⟨(c5_failures_yield_none envNoKey svcAllFail bkSherbrooke 4).1 rfl,
   (c5_failures_yield_none envNoKey svcAllFail bkSherbrooke 4).2.2.1 rfl rfl,
   (c5_failures_yield_none envNoKey svcAllFail bkSherbrooke 4).2.2.2.1 rfl⟩

/-- Case enumeration for generate_quantum_bitsT: the pipeline has exactly
four possible executions, determined by which remote step first fails. -/
theorem generateT_cases (env : Env) (n_bits : Nat) :
    (init_ibm_service env = none ∧
      generate_quantum_bitsT env n_bits =
        (run_local_simulation env n_bits, [Step.initStep, Step.localStep])) ∨
    (∃ service, init_ibm_service env = some service ∧
      get_quantum_backend service = none ∧
      generate_quantum_bitsT env n_bits =
        (run_local_simulation env n_bits,
          [Step.initStep, Step.backendStep, Step.localStep])) ∨
    (∃ service backend, init_ibm_service env = some service ∧
      get_quantum_backend service = some backend ∧
      (run_quantum_job env backend n_bits = none ∨
        run_quantum_job env backend n_bits = some "") ∧
      generate_quantum_bitsT env n_bits =
        (run_local_simulation env n_bits,
          [Step.initStep, Step.backendStep, Step.jobStep, Step.localStep])) ∨
    (∃ service backend s, init_ibm_service env = some service ∧
      get_quantum_backend service = some backend ∧
      run_quantum_job env backend n_bits = some s ∧ s ≠ "" ∧
      generate_quantum_bitsT env n_bits =
        (some s, [Step.initStep, Step.backendStep, Step.jobStep])) := by
  cases hi : init_ibm_service env with
  | none => exact Or.inl ⟨rfl, by simp [generate_quantum_bitsT, hi]⟩
  | some service =>
    cases hb : get_quantum_backend service with
    | none =>
      exact Or.inr (Or.inl ⟨service, rfl, hb, by simp [generate_quantum_bitsT, hi, hb]⟩)
    | some backend =>
      cases hj : run_quantum_job env backend n_bits with
      | none =>
        exact Or.inr (Or.inr (Or.inl ⟨service, backend, rfl, hb, Or.inl hj,
          by simp [generate_quantum_bitsT, hi, hb, hj]⟩))
      | some bits =>
        by_cases he : bits = ""
        · subst he
          exact Or.inr (Or.inr (Or.inl ⟨service, backend, rfl, hb, Or.inr hj,
            by simp [generate_quantum_bitsT, hi, hb, hj]⟩))
        · exact Or.inr (Or.inr (Or.inr ⟨service, backend, bits, rfl, hb, hj, he,
            by simp [generate_quantum_bitsT, hi, hb, hj, he]⟩))

/-- C1: generate_quantum_bits invokes the local simulator fallback and
returns its result exactly when the remote path fails (no service, no
backend, or no usable job bitstring); when the job yields a non-empty
bitstring, that string is returned and the local simulator is never run. -/
theorem c1_fallback_iff_remote_fails (env : Env) (n_bits : Nat) :
    ((Step.localStep ∈ (generate_quantum_bitsT env n_bits).2 ∧
      generate_quantum_bits env n_bits = run_local_simulation env n_bits) ↔
      remote_path_fails env n_bits) ∧
    (¬ remote_path_fails env n_bits →
      ∃ service backend s,
        init_ibm_service env = some service ∧
        get_quantum_backend service = some backend ∧
        run_quantum_job env backend n_bits = some s ∧ s ≠ "" ∧
        generate_quantum_bits env n_bits = some s ∧
        Step.localStep ∉ (generate_quantum_bitsT env n_bits).2) := by
  rcases generateT_cases env n_bits with
    ⟨hi, hT⟩ | ⟨service, hi, hb, hT⟩ | ⟨service, backend, hi, hb, hj, hT⟩ |
    ⟨service, backend, s, hi, hb, hj, hne, hT⟩
  · have hf : remote_path_fails env n_bits := Or.inl hi
    exact ⟨iff_of_true ⟨by simp [hT], by simp [generate_quantum_bits, hT]⟩ hf,
      fun h => absurd hf h⟩
  · have hf : remote_path_fails env n_bits := Or.inr ⟨service, hi, Or.inl hb⟩
    exact ⟨iff_of_true ⟨by simp [hT], by simp [generate_quantum_bits, hT]⟩ hf,
      fun h => absurd hf h⟩
  · have hf : remote_path_fails env n_bits :=
      Or.inr ⟨service, hi, Or.inr ⟨backend, hb, hj⟩⟩
    exact ⟨iff_of_true ⟨by simp [hT], by simp [generate_quantum_bits, hT]⟩ hf,
      fun h => absurd hf h⟩
  · have hnf : ¬ remote_path_fails env n_bits := by
      rintro (hf | ⟨service', hi', hf⟩)
      · rw [hi] at hf
        cases hf
      · rw [hi] at hi'
        injection hi' with h
        subst h
        rcases hf with hf | ⟨backend', hb', hf⟩
        · rw [hb] at hf
          cases hf
        · rw [hb] at hb'
          injection hb' with h
          subst h
          rcases hf with hf | hf <;> rw [hj] at hf
          · cases hf
          · injection hf with h
            exact hne h
    refine ⟨iff_of_false ?_ hnf, fun _ => ⟨service, backend, s, hi, hb, hj, hne,
      by simp [generate_quantum_bits, hT], by simp [hT]⟩⟩
    rintro ⟨hmem, -⟩
    rw [hT] at hmem
    simp at hmem

/-- Witness for C1: with no API key the fallback runs and its result is
returned. -/
theorem c1_fallback_iff_remote_fails_witness :
    Step.localStep ∈ (generate_quantum_bitsT envNoKey 4).2 ∧
    generate_quantum_bits envNoKey 4 = run_local_simulation envNoKey 4 :=
  (c1_fallback_iff_remote_fails envNoKey 4).1.mpr (Or.inl rfl)

/-- C6: every execution performs the four steps in the fixed order
auth, backend discovery, job, local fallback — one of exactly four traces —
with no step repeated or reordered, and a later remote step runs only when
every earlier remote step succeeded. -/
theorem c6_pipeline_order (env : Env) (n_bits : Nat) :
    ((generate_quantum_bitsT env n_bits).2 = [Step.initStep, Step.localStep] ∨
      (generate_quantum_bitsT env n_bits).2 =
        [Step.initStep, Step.backendStep, Step.localStep] ∨
      (generate_quantum_bitsT env n_bits).2 =
        [Step.initStep, Step.backendStep, Step.jobStep, Step.localStep] ∨
      (generate_quantum_bitsT env n_bits).2 =
        [Step.initStep, Step.backendStep, Step.jobStep]) ∧
    (generate_quantum_bitsT env n_bits).2.Nodup ∧
    Step.initStep ∈ (generate_quantum_bitsT env n_bits).2 ∧
    (Step.backendStep ∈ (generate_quantum_bitsT env n_bits).2 ↔
      ∃ service, init_ibm_service env = some service) ∧
    (Step.jobStep ∈ (generate_quantum_bitsT env n_bits).2 ↔
      ∃ service backend, init_ibm_service env = some service ∧
        get_quantum_backend service = some backend) := by
  rcases generateT_cases env n_bits with
    ⟨hi, hT⟩ | ⟨service, hi, hb, hT⟩ | ⟨service, backend, hi, hb, hj, hT⟩ |
    ⟨service, backend, s, hi, hb, hj, hne, hT⟩
  · refine ⟨Or.inl (by simp [hT]), by simp [hT], by simp [hT], ?_, ?_⟩
    · simp [hT, hi]
    · simp [hT, hi]
  · refine ⟨Or.inr (Or.inl (by simp [hT])), by simp [hT], by simp [hT], ?_, ?_⟩
    · simp [hT, hi]
    · simp [hT, hi, hb]
  · refine ⟨Or.inr (Or.inr (Or.inl (by simp [hT]))), by simp [hT], by simp [hT], ?_, ?_⟩
    · simp [hT, hi]
    · simp [hT, hi, hb]
  · refine ⟨Or.inr (Or.inr (Or.inr (by simp [hT]))), by simp [hT], by simp [hT], ?_, ?_⟩
    · simp [hT, hi]
    · simp [hT, hi, hb]

/-- Witness for C6: with no API key the trace starts with the auth step and
never reaches backend discovery. -/
theorem c6_pipeline_order_witness :
    Step.initStep ∈ (generate_quantum_bitsT envNoKey 4).2 ∧
    Step.backendStep ∉ (generate_quantum_bitsT envNoKey 4).2 :=
  ⟨(c6_pipeline_order envNoKey 4).2.2.1,
   fun hmem => by
     obtain ⟨service, hs⟩ := ((c6_pipeline_order envNoKey 4).2.2.2.1).mp hmem
     simp [init_ibm_service, init_ibm_serviceT, envNoKey, apiKeyFalsy] at hs⟩

/-- Positional binary accumulation equals Nat.ofDigits on the reversed digit
list. -/
theorem foldl_two_mul_eq_ofDigits (d : Char → Nat) :
    ∀ (l : List Char) (a : Nat),
      l.foldl (fun acc c => 2 * acc + d c) a =
        Nat.ofDigits 2 ((l.map d).reverse) + a * 2 ^ l.length := by
  intro l
  induction l with
  | nil => intro a; simp
  | cons c t ih =>
    intro a
    simp only [List.foldl_cons, List.map_cons, List.reverse_cons, List.length_cons]
    rw [ih, Nat.ofDigits_append]
    simp [Nat.ofDigits]
    ring

/-- On a list of binary characters the counts of the two digits exhaust the
length. -/
theorem count_bits_exhaust (l : List Char) (h : ∀ c ∈ l, isBit c = true) :
    l.count '0' + l.count '1' = l.length := by
  induction l with
  | nil => simp
  | cons c t ih =>
    have hc := h c (List.mem_cons_self c t)
    have ht : ∀ x ∈ t, isBit x = true := fun x hx => h x (List.mem_cons_of_mem c hx)
    have hc2 : c = '0' ∨ c = '1' := by simpa [isBit] using hc
    have ihh := ih ht
    rcases hc2 with rfl | rfl <;> simp +decide [List.count_cons] <;> omega

/-- The entropy test in exact arithmetic: Pass is equivalent to the
cross-multiplied strict bounds, with n_bits as the denominator. -/
theorem entropy_pass_iff (bits : String) (n_bits : Nat) (hn : 1 ≤ n_bits) :
    entropy_pass bits n_bits = true ↔
      2 * n_bits < 5 * countChar bits '1' ∧
        5 * countChar bits '1' < 3 * n_bits := by
  have h0 : 0 < n_bits := hn
  have hq : (0:ℚ) < (n_bits:ℚ) := by exact_mod_cast h0
  simp only [entropy_pass, decide_eq_true_eq]
  rw [lt_div_iff₀ hq, div_lt_iff₀ hq]
  constructor
  · rintro ⟨h1, h2⟩
    constructor
    · have h3 : (2:ℚ) * n_bits < 5 * countChar bits '1' := by nlinarith
      exact_mod_cast h3
    · have h3 : (5:ℚ) * countChar bits '1' < 3 * n_bits := by nlinarith
      exact_mod_cast h3
  · rintro ⟨h1, h2⟩
    have h1q : (2:ℚ) * n_bits < 5 * countChar bits '1' := by exact_mod_cast h1
    have h2q : (5:ℚ) * countChar bits '1' < 3 * n_bits := by exact_mod_cast h2
    constructor <;> nlinarith

/-- C8: after generation the script reports int(bits, 2), the counts of '0'
and '1' in bits, and an entropy test passing exactly when
0.4 < ones / n_bits < 0.6 with strict bounds and the requested n_bits as the
denominator. -/
theorem c8_reported_statistics (bits : String) (n_bits : Nat) (hn : 1 ≤ n_bits) :
    (report_stats bits n_bits).decimalValue = intBase2 bits ∧
    (report_stats bits n_bits).zeros = bits.data.count '0' ∧
    (report_stats bits n_bits).ones = bits.data.count '1' ∧
    ((report_stats bits n_bits).entropyPass = true ↔
      2 * n_bits < 5 * countChar bits '1' ∧
        5 * countChar bits '1' < 3 * n_bits) ∧
    (bits.data.all isBit = true →
      (report_stats bits n_bits).zeros + (report_stats bits n_bits).ones =
        bits.length) ∧
    ∀ v, (report_stats bits n_bits).decimalValue = some v →
      v = Nat.ofDigits 2
        ((bits.data.map fun c => if c = '1' then 1 else 0).reverse) := by
  refine ⟨rfl, rfl, rfl, entropy_pass_iff bits n_bits hn, ?_, ?_⟩
  · intro hall
    have hall2 : ∀ c ∈ bits.data, isBit c = true := by
      simpa [List.all_eq_true] using hall
    exact count_bits_exhaust bits.data hall2
  · intro v hv
    simp only [report_stats, intBase2] at hv
    split at hv
    · have hv2 := Option.some.inj hv
      rw [← hv2, foldl_two_mul_eq_ofDigits]
      simp
    · cases hv

/-- Witness for C8 at bits = "0110", n_bits = 4: the half-and-half string
passes the entropy test. -/
theorem c8_reported_statistics_witness :
    (report_stats "0110" 4).entropyPass = true :=
  ((c8_reported_statistics "0110" 4 (by norm_num)).2.2.2.1).mpr (by decide)

/-- C2: for every n_bits ≥ 1, when the SDK honours its contract — transpiling
preserves the number of measured bits, a shots=1 submission yields bitstrings
of one binary character per measured bit, and the local simulator returns a
non-empty counts dict with such keys — generate_quantum_bits returns a string
of exactly n_bits characters, each '0' or '1'. -/
theorem c2_bitstring_shape (env : Env) (n_bits : Nat)
    (_hn : 1 ≤ n_bits)
    (hT : ∀ (qc : QuantumCircuit) (backend : Backend) (tqc : TranspiledCircuit),
      env.transpileF qc backend = .ok tqc → tqc.measuredBits = qc.measuredBits)
    (hS : ∀ (backend : Backend) (tqc : TranspiledCircuit) (r : JobResult),
      env.submit backend tqc 1 = .ok r →
      ∀ s ∈ resultStrings r, s.length = tqc.measuredBits ∧ s.data.all isBit = true)
    (hL : env.localRun (localCircuit n_bits) 1 ≠ [] ∧
      ∀ k ∈ env.localRun (localCircuit n_bits) 1,
        (removeSpaces k).length = n_bits ∧ (removeSpaces k).data.all isBit = true) :
    ∃ s, generate_quantum_bits env n_bits = some s ∧
      s.length = n_bits ∧ s.data.all isBit = true := by
  have hlocal : ∃ s, run_local_simulation env n_bits = some s ∧
      s.length = n_bits ∧ s.data.all isBit = true := by
    rcases hL with ⟨hne, hprop⟩
    cases hl : env.localRun (localCircuit n_bits) 1 with
    | nil => exact absurd hl hne
    | cons k t =>
      refine ⟨removeSpaces k, by simp [run_local_simulation, hl], ?_⟩
      exact hprop k (by rw [hl]; exact List.mem_cons_self k t)
  rcases generateT_cases env n_bits with
    ⟨hi, hTr⟩ | ⟨service, hi, hb, hTr⟩ | ⟨service, backend, hi, hb, hj, hTr⟩ |
    ⟨service, backend, s, hi, hb, hj, hne, hTr⟩
  · obtain ⟨s, hs, hlen, hbit⟩ := hlocal
    exact ⟨s, by simp [generate_quantum_bits, hTr, hs], hlen, hbit⟩
  · obtain ⟨s, hs, hlen, hbit⟩ := hlocal
    exact ⟨s, by simp [generate_quantum_bits, hTr, hs], hlen, hbit⟩
  · obtain ⟨s, hs, hlen, hbit⟩ := hlocal
    exact ⟨s, by simp [generate_quantum_bits, hTr, hs], hlen, hbit⟩
  · obtain ⟨tqc, r, p, ps, db, ba, rest, h1, h2, h3, h4, h5, h6, h7⟩ :=
      (run_quantum_job_eq_some_iff env backend n_bits s).mp hj
    have hmem : s ∈ resultStrings r := by
      simp only [resultStrings, h3]
      exact List.mem_flatMap.mpr ⟨p, List.mem_cons_self p ps,
        by simp [pubStrings, h4, h5, h6]⟩
    have hshape := hS backend tqc r h2 s hmem
    have hms := hT (remoteCircuit n_bits) backend tqc h1
    have hrc : (remoteCircuit n_bits).measuredBits = n_bits := by
      simp [QuantumCircuit.measuredBits, remoteCircuit, QuantumCircuit.new,
        QuantumCircuit.hGates, QuantumCircuit.measureAllOp]
    exact ⟨s, by simp [generate_quantum_bits, hTr],
      by rw [hshape.1, hms, hrc], hshape.2⟩

/-- Witness for C2 in the missing-key world, whose local simulator answers
the all-zero 8-bit string. -/
theorem c2_bitstring_shape_witness :
    ∃ s, generate_quantum_bits envNoKey 8 = some s ∧
      s.length = 8 ∧ s.data.all isBit = true :=
  c2_bitstring_shape envNoKey 8 (by norm_num)
    (fun _ _ _ h => Except.noConfusion h)
    (fun _ _ _ h => Except.noConfusion h)
    (by constructor
        · decide
        · decide)

/-- Inversion lemma for the search loop: it yields backend b exactly when b
is listed, operational, and every earlier entry answered its status query
with not-operational (an earlier raising status() aborts the search
instead). -/
theorem search_operational_eq_some :
    ∀ (bs : List Backend) (b : Backend),
      search_operational bs = some b ↔
        ∃ pre post, bs = pre ++ b :: post ∧
          (∃ st, b.status = .ok st ∧ st.operational = true) ∧
          ∀ x ∈ pre, ∃ st, x.status = .ok st ∧ st.operational = false := by
  intro bs
  induction bs with
  | nil =>
    intro b
    constructor
    · intro h
      cases h
    · rintro ⟨pre, post, heq, -, -⟩
      exact absurd heq.symm (List.append_ne_nil_of_right_ne_nil pre (by simp))
  | cons hd tl ih =>
    intro b
    cases hst : hd.status with
    | error e =>
      simp only [search_operational, hst]
      constructor
      · intro h
        cases h
      · rintro ⟨pre, post, heq, hop, hpre⟩
        cases pre with
        | nil =>
          simp only [List.nil_append, List.cons.injEq] at heq
          obtain ⟨st, hbs, -⟩ := hop
          rw [← heq.1, hst] at hbs
          cases hbs
        | cons p pre2 =>
          simp only [List.cons_append, List.cons.injEq] at heq
          obtain ⟨st, hps, -⟩ := hpre p (List.mem_cons_self p pre2)
          rw [← heq.1, hst] at hps
          cases hps
    | ok st =>
      by_cases hop : st.operational = true
      · simp only [search_operational, hst, hop, if_true]
        constructor
        · intro h
          injection h with h
          subst h
          exact ⟨[], tl, rfl, ⟨st, hst, hop⟩, by simp⟩
        · rintro ⟨pre, post, heq, ⟨st', hbs, hop'⟩, hpre⟩
          cases pre with
          | nil =>
            simp only [List.nil_append, List.cons.injEq] at heq
            rw [heq.1]
          | cons p pre2 =>
            simp only [List.cons_append, List.cons.injEq] at heq
            obtain ⟨st2, hps, hop2⟩ := hpre p (List.mem_cons_self p pre2)
            rw [← heq.1, hst] at hps
            injection hps with hps
            rw [← hps] at hop2
            rw [hop2] at hop
            cases hop
      · simp only [search_operational, hst]
        rw [if_neg hop, ih b]
        constructor
        · rintro ⟨pre, post, heq, hopb, hpre⟩
          refine ⟨hd :: pre, post, by rw [heq, List.cons_append], hopb, ?_⟩
          intro x hx
          rcases List.mem_cons.mp hx with rfl | hx
          · exact ⟨st, hst, by simpa using hop⟩
          · exact hpre x hx
        · rintro ⟨pre, post, heq, hopb, hpre⟩
          cases pre with
          | nil =>
            simp only [List.nil_append, List.cons.injEq] at heq
            obtain ⟨st', hbs, hop'⟩ := hopb
            rw [← heq.1, hst] at hbs
            injection hbs with hbs
            rw [← hbs] at hop'
            exact absurd hop' hop
          | cons p pre2 =>
            simp only [List.cons_append, List.cons.injEq] at heq
            exact ⟨pre2, post, heq.2, hopb,
              fun x hx => hpre x (List.mem_cons_of_mem p hx)⟩

/-- The fallback half of get_quantum_backend: what the search over
service.backends() returns. -/
theorem fallback_search_iff (service : Service) (b : Backend) :
    (match service.backendsList with
      | .error _ => none
      | .ok bs => search_operational bs) = some b ↔
      ∃ bs pre post, service.backendsList = .ok bs ∧
        bs = pre ++ b :: post ∧
        (∃ st, b.status = .ok st ∧ st.operational = true) ∧
        ∀ x ∈ pre, ∃ st, x.status = .ok st ∧ st.operational = false := by
  cases hl : service.backendsList with
  | error e =>
    constructor
    · intro h
      cases h
    · rintro ⟨bs, pre, post, h1, -⟩
      cases h1
  | ok bs =>
    constructor
    · intro h
      obtain ⟨pre, post, heq, hop, hpre⟩ := (search_operational_eq_some bs b).mp h
      exact ⟨bs, pre, post, rfl, heq, hop, hpre⟩
    · rintro ⟨bs2, pre, post, h1, heq, hop, hpre⟩
      injection h1 with h1
      subst h1
      exact (search_operational_eq_some _ b).mpr ⟨pre, post, heq, hop, hpre⟩

/-- C7 counterexample: the claim as stated fails.  In cexService the named
lookup raises, backends() enumerates successfully, and its (first and only)
operational backend is cexBackendGood — so the claimed selection rule picks
cexBackendGood — but the code returns None, because the raising status() of
the earlier cexBackendBad aborts the search loop. -/
theorem c7_backend_selection_counterexample :
    get_quantum_backend cexService = none ∧
    claimed_backend_choice cexService = some cexBackendGood ∧
    get_quantum_backend cexService ≠ claimed_backend_choice cexService := by
  refine ⟨rfl, rfl, ?_⟩
  intro h
  cases h

/-- Inversion of the ibm_sherbrooke preference: it yields b exactly when the
named lookup answers b and b reports operational. -/
theorem sherbrooke_choice_eq_some_iff (service : Service) (b : Backend) :
    sherbrooke_choice service = some b ↔
      ∃ st, service.backendByName "ibm_sherbrooke" = .ok b ∧
        b.status = .ok st ∧ st.operational = true := by
  unfold sherbrooke_choice
  cases hn : service.backendByName "ibm_sherbrooke" with
  | error e => simp
  | ok b0 =>
    cases hst : b0.status with
    | error e =>
      constructor
      · intro h
        simp [hst] at h
      · rintro ⟨st, h1, h2, -⟩
        injection h1 with h1
        subst h1
        rw [hst] at h2
        cases h2
    | ok st =>
      by_cases hop : st.operational = true
      · constructor
        · intro h
          simp [hst, hop] at h
          subst h
          exact ⟨st, rfl, hst, hop⟩
        · rintro ⟨st2, h1, -, -⟩
          injection h1 with h1
          subst h1
          simp [hst, hop]
      · constructor
        · intro h
          simp [hst, hop] at h
        · rintro ⟨st2, h1, h2, hop2⟩
          injection h1 with h1
          subst h1
          rw [hst] at h2
          injection h2 with h2
          subst h2
          exact absurd hop2 hop

/-- C7 (amended): get_quantum_backend returns b exactly when either the named
ibm_sherbrooke lookup yields b with an operational status, or no such named
hit exists and b is the first backend of service.backends() whose status
query answered operational, with every earlier listed backend having
answered its status query with not-operational; in particular a raising
status() during the search yields None even when an operational backend
follows. -/
theorem c7_backend_selection (service : Service) (b : Backend) :
    get_quantum_backend service = some b ↔
      (∃ st, service.backendByName "ibm_sherbrooke" = .ok b ∧
        b.status = .ok st ∧ st.operational = true) ∨
      ((¬ ∃ b2 st, service.backendByName "ibm_sherbrooke" = .ok b2 ∧
          b2.status = .ok st ∧ st.operational = true) ∧
        ∃ bs pre post, service.backendsList = .ok bs ∧
          bs = pre ++ b :: post ∧
          (∃ st, b.status = .ok st ∧ st.operational = true) ∧
          ∀ x ∈ pre, ∃ st, x.status = .ok st ∧ st.operational = false) := by
  cases hv : sherbrooke_choice service with
  | some b0 =>
    have hg : get_quantum_backend service = some b0 := by
      unfold get_quantum_backend
      rw [hv]
    obtain ⟨st, h1, h2, hop⟩ := (sherbrooke_choice_eq_some_iff service b0).mp hv
    constructor
    · intro h
      rw [hg] at h
      injection h with h
      subst h
      exact Or.inl ⟨st, h1, h2, hop⟩
    · rintro (⟨st2, g1, -, -⟩ | ⟨hno, -⟩)
      · rw [h1] at g1
        injection g1 with g1
        rw [hg, g1]
      · exact absurd ⟨b0, st, h1, h2, hop⟩ hno
  | none =>
    have hno : ¬ ∃ b2 st, service.backendByName "ibm_sherbrooke" = .ok b2 ∧
        b2.status = .ok st ∧ st.operational = true := by
      rintro ⟨b2, st, h1, h2, hop⟩
      have h3 := (sherbrooke_choice_eq_some_iff service b2).mpr ⟨st, h1, h2, hop⟩
      rw [hv] at h3
      cases h3
    have hg : get_quantum_backend service =
        (match service.backendsList with
          | .error _ => none
          | .ok bs => search_operational bs) := by
      unfold get_quantum_backend
      rw [hv]
    rw [hg, fallback_search_iff service b]
    constructor
    · intro h
      exact Or.inr ⟨hno, h⟩
    · rintro (⟨st, g1, g2, gop⟩ | ⟨-, h⟩)
      · exact absurd ⟨b, st, g1, g2, gop⟩ hno
      · exact h

/-- Witness for the amended C7: a service whose named lookup answers the
operational sherbrooke backend gets exactly that backend. -/
theorem c7_backend_selection_witness :
    get_quantum_backend svcSherbrooke = some bkSherbrooke :=
  (c7_backend_selection svcSherbrooke bkSherbrooke).mpr
    (Or.inl ⟨⟨true⟩, rfl, rfl, rfl⟩)

end QuantumRng
